import Mathlib

/-!
Verification of the Silent Payments (BIP-352) detection engine of the
silent-pay wallet: a shallow embedding of the UTXO repository, key
derivation, transaction processor and backward block scanner, with the
testable properties of the design settled as theorems.

Hex strings are modelled as `List Char` and byte arrays as `List (Fin 256)`,
mirroring the JavaScript `Buffer`/`Uint8Array` values the source manipulates.
-/

namespace SilentPay

/-- A byte of a `Uint8Array` or `Buffer`. -/
abbrev Byte := Fin 256

/-- Lowercase hex digit for a nibble, as produced by `Buffer.toString` with
the hex encoding (digits 0-9 then a-f). -/
def hexDigit (n : Nat) : Char :=
  if n < 10 then Char.ofNat (48 + n) else Char.ofNat (87 + n)

/-- Value of one hex digit character; `Buffer.from` with the hex encoding
accepts both lowercase and uppercase digits. -/
def decodeDigit (c : Char) : Option (Fin 16) :=
  if h : 48 ≤ c.toNat ∧ c.toNat ≤ 57 then some ⟨c.toNat - 48, by omega⟩
  else if h2 : 97 ≤ c.toNat ∧ c.toNat ≤ 102 then some ⟨c.toNat - 87, by omega⟩
  else if h3 : 65 ≤ c.toNat ∧ c.toNat ≤ 70 then some ⟨c.toNat - 55, by omega⟩
  else none

/-- `Buffer.from(bytes).toString` with the hex encoding: two lowercase hex
characters per byte, high nibble first. -/
def hexEncode (bs : List Byte) : List Char :=
  bs.flatMap (fun b => [hexDigit (b.val / 16), hexDigit (b.val % 16)])

/-- `Buffer.from(chars, hex)`: decodes hex pairs from the front, stopping at
the first invalid pair and dropping an odd trailing character, as Node does. -/
def hexDecode : List Char → List Byte
  | c1 :: c2 :: rest =>
    match decodeDigit c1, decodeDigit c2 with
    | some hi, some lo => (⟨16 * hi.val + lo.val, by omega⟩ : Byte) :: hexDecode rest
    | _, _ => []
  | _ => []

theorem decodeDigit_hexDigit (d : Fin 16) : decodeDigit (hexDigit d.val) = some d := by
  revert d
  decide

theorem hexDecode_hexEncode (bs : List Byte) : hexDecode (hexEncode bs) = bs := by
  induction bs with
  | nil => rfl
  | cons b bs ih =>
    have hhi : b.val / 16 < 16 := by omega
    have hlo : b.val % 16 < 16 := by omega
    have e1 : decodeDigit (hexDigit (b.val / 16)) = some ⟨b.val / 16, hhi⟩ :=
      decodeDigit_hexDigit ⟨b.val / 16, hhi⟩
    have e2 : decodeDigit (hexDigit (b.val % 16)) = some ⟨b.val % 16, hlo⟩ :=
      decodeDigit_hexDigit ⟨b.val % 16, hlo⟩
    simp only [hexEncode, List.flatMap_cons] at *
    simp only [List.cons_append, List.nil_append, hexDecode, e1, e2]
    refine congrArg₂ List.cons (Fin.ext ?_) ih
    simp only
    omega

/-! ## UTXO repository (src/helpers/silent-payments/UTXORepository.ts) -/

/-- Runtime form of a matched output (`SilentPaymentUTXO` in types.ts). -/
structure SilentPaymentUTXO where
  txid : String
  vout : Nat
  value : Nat
  pubKey : List Char
  blockHeight : Nat
  blockHash : String
  tweak : List Byte
  isSpent : Bool
deriving DecidableEq, Repr

/-- Persistence form (`SilentPaymentUTXOSerializable` in types.ts): the tweak
is kept as hex characters. -/
structure SilentPaymentUTXOSerializable where
  txid : String
  vout : Nat
  value : Nat
  pubKey : List Char
  blockHeight : Nat
  blockHash : String
  tweakHex : List Char
  isSpent : Bool
deriving DecidableEq, Repr

/-- The serializable record `add` pushes alongside the runtime record. -/
def toSerializable (u : SilentPaymentUTXO) : SilentPaymentUTXOSerializable :=
  { txid := u.txid, vout := u.vout, value := u.value, pubKey := u.pubKey
    blockHeight := u.blockHeight, blockHash := u.blockHash
    tweakHex := hexEncode u.tweak, isSpent := u.isSpent }

/-- The runtime record `loadFromSerializable` reconstructs per entry. -/
def fromSerializable (e : SilentPaymentUTXOSerializable) : SilentPaymentUTXO :=
  { txid := e.txid, vout := e.vout, value := e.value, pubKey := e.pubKey
    blockHeight := e.blockHeight, blockHash := e.blockHash
    tweak := hexDecode e.tweakHex, isSpent := e.isSpent }

/-- State of `UTXORepository`: the runtime list and the serializable list. -/
structure UTXORepository where
  utxos : List SilentPaymentUTXO
  utxosSerializable : List SilentPaymentUTXOSerializable
deriving DecidableEq, Repr

/-- A freshly constructed repository. -/
def UTXORepository.empty : UTXORepository := ⟨[], []⟩

/-- `add(utxo)`: dedup on (txid, vout); push to both lists when new; the
Boolean result reports whether insertion occurred. -/
def UTXORepository.add (r : UTXORepository) (u : SilentPaymentUTXO) :
    Bool × UTXORepository :=
  if r.utxos.any (fun x => x.txid == u.txid && x.vout == u.vout) then (false, r)
  else (true, ⟨r.utxos ++ [u], r.utxosSerializable ++ [toSerializable u]⟩)

/-- `getAll()`: the entries whose spent flag is false, in insertion order. -/
def UTXORepository.getAll (r : UTXORepository) : List SilentPaymentUTXO :=
  r.utxos.filter (fun u => !u.isSpent)

/-- `getBalance()`: reduce over the unspent entries, summing `value`. -/
def UTXORepository.getBalance (r : UTXORepository) : Nat :=
  (r.utxos.filter (fun u => !u.isSpent)).foldl (fun sum u => sum + u.value) 0

/-- `getSerializable()`. -/
def UTXORepository.getSerializable (r : UTXORepository) :
    List SilentPaymentUTXOSerializable :=
  r.utxosSerializable

/-- `loadFromSerializable(serializable)`: replaces both lists, rebuilding the
binary tweak of each runtime entry from its hex form. -/
def UTXORepository.loadFromSerializable (s : List SilentPaymentUTXOSerializable) :
    UTXORepository :=
  ⟨s.map fromSerializable, s⟩

/-- `clear()`. -/
def UTXORepository.clear (_r : UTXORepository) : UTXORepository :=
  UTXORepository.empty

/-- A repository built by a sequence of `add` calls on a fresh instance. -/
def addAll (r : UTXORepository) (us : List SilentPaymentUTXO) : UTXORepository :=
  us.foldl (fun acc u => (acc.add u).2) r

theorem fromSerializable_toSerializable (u : SilentPaymentUTXO) :
    fromSerializable (toSerializable u) = u := by
  simp [fromSerializable, toSerializable, hexDecode_hexEncode]

theorem foldl_add_value (l : List SilentPaymentUTXO) (a : Nat) :
    l.foldl (fun sum u => sum + u.value) a = a + (l.map (fun u => u.value)).sum := by
  induction l generalizing a with
  | nil => simp
  | cons u l ih => simp [ih, Nat.add_assoc]

theorem getBalance_eq_sum (r : UTXORepository) :
    r.getBalance = ((r.utxos.filter (fun u => !u.isSpent)).map (fun u => u.value)).sum := by
  simp [UTXORepository.getBalance, foldl_add_value]

/-- In a repository built purely by `add` calls, the serializable list is the
image of the runtime list under `toSerializable`. -/
theorem add_keeps_canonical (r : UTXORepository) (u : SilentPaymentUTXO)
    (h : r.utxosSerializable = r.utxos.map toSerializable) :
    (r.add u).2.utxosSerializable = (r.add u).2.utxos.map toSerializable := by
  unfold UTXORepository.add
  split
  · exact h
  · simp [h]

theorem addAll_canonical (us : List SilentPaymentUTXO) (r : UTXORepository)
    (h : r.utxosSerializable = r.utxos.map toSerializable) :
    (addAll r us).utxosSerializable = (addAll r us).utxos.map toSerializable := by
  induction us generalizing r with
  | nil => exact h
  | cons u us ih =>
    simp only [addAll, List.foldl_cons]
    exact ih _ (add_keeps_canonical r u h)

theorem load_getSerializable_utxos (us : List SilentPaymentUTXO) :
    (UTXORepository.loadFromSerializable
        (addAll UTXORepository.empty us).getSerializable).utxos
      = (addAll UTXORepository.empty us).utxos := by
  have h := addAll_canonical us UTXORepository.empty rfl
  have hcomp : fromSerializable ∘ toSerializable = id := funext fromSerializable_toSerializable
  simp [UTXORepository.loadFromSerializable, UTXORepository.getSerializable, h, hcomp]

/-- Operations mutating a `UTXORepository` instance. -/
inductive RepoOp where
  | addU (u : SilentPaymentUTXO)
  | clearR
  | load (s : List SilentPaymentUTXOSerializable)

def applyRepoOp (r : UTXORepository) : RepoOp → UTXORepository
  | .addU u => (r.add u).2
  | .clearR => r.clear
  | .load s => UTXORepository.loadFromSerializable s

def runRepoOps (ops : List RepoOp) : UTXORepository :=
  ops.foldl applyRepoOp UTXORepository.empty

/-- Pairwise agreement between a runtime entry and a serializable entry: all
plain fields coincide and the binary tweak is the hex decoding of the stored
hex tweak. -/
def utxoAligned (u : SilentPaymentUTXO) (e : SilentPaymentUTXOSerializable) : Prop :=
  u.txid = e.txid ∧ u.vout = e.vout ∧ u.value = e.value ∧ u.pubKey = e.pubKey ∧
  u.blockHeight = e.blockHeight ∧ u.blockHash = e.blockHash ∧ u.isSpent = e.isSpent ∧
  u.tweak = hexDecode e.tweakHex

def repoSync (r : UTXORepository) : Prop :=
  List.Forall₂ utxoAligned r.utxos r.utxosSerializable

theorem utxoAligned_toSerializable (u : SilentPaymentUTXO) :
    utxoAligned u (toSerializable u) := by
  refine ⟨rfl, rfl, rfl, rfl, rfl, rfl, rfl, ?_⟩
  exact (hexDecode_hexEncode u.tweak).symm

theorem utxoAligned_fromSerializable (e : SilentPaymentUTXOSerializable) :
    utxoAligned (fromSerializable e) e :=
  ⟨rfl, rfl, rfl, rfl, rfl, rfl, rfl, rfl⟩

theorem repoSync_applyRepoOp (r : UTXORepository) (op : RepoOp) (h : repoSync r) :
    repoSync (applyRepoOp r op) := by
  cases op with
  | addU u =>
    simp only [applyRepoOp, UTXORepository.add]
    split
    · exact h
    · exact List.rel_append h
        (List.forall₂_cons.mpr ⟨utxoAligned_toSerializable u, List.Forall₂.nil⟩)
  | clearR => exact List.Forall₂.nil
  | load s =>
    simp only [applyRepoOp, UTXORepository.loadFromSerializable, repoSync]
    induction s with
    | nil => exact List.Forall₂.nil
    | cons e s ih => exact List.forall₂_cons.mpr ⟨utxoAligned_fromSerializable e, ih⟩

theorem repoSync_runRepoOps (ops : List RepoOp) : repoSync (runRepoOps ops) := by
  have base : repoSync UTXORepository.empty := List.Forall₂.nil
  rw [runRepoOps]
  generalize UTXORepository.empty = r at base ⊢
  induction ops generalizing r with
  | nil => exact base
  | cons op ops ih => exact ih _ (repoSync_applyRepoOp r op base)

/-- Flipping the spent flag of a serialized entry, as a wallet reload with an
updated flag would deliver it. -/
def markSpent (e : SilentPaymentUTXOSerializable) : SilentPaymentUTXOSerializable :=
  { e with isSpent := true }

theorem getBalance_load (s : List SilentPaymentUTXOSerializable) :
    (UTXORepository.loadFromSerializable s).getBalance
      = ((s.filter (fun e => !e.isSpent)).map (fun e => e.value)).sum := by
  rw [getBalance_eq_sum]
  simp only [UTXORepository.loadFromSerializable]
  induction s with
  | nil => rfl
  | cons e s ih =>
    by_cases hs : e.isSpent <;>
      simp [fromSerializable, List.filter_cons, hs, ih]

theorem sum_set_spent (s : List SilentPaymentUTXOSerializable) :
    ∀ (i : Nat) (hi : i < s.length), (s.get ⟨i, hi⟩).isSpent = false →
      (((s.set i (markSpent (s.get ⟨i, hi⟩))).filter (fun e => !e.isSpent)).map
          (fun e => e.value)).sum + (s.get ⟨i, hi⟩).value
        = ((s.filter (fun e => !e.isSpent)).map (fun e => e.value)).sum := by
  induction s with
  | nil => intro i hi; simp at hi
  | cons e s ih =>
    intro i hi hun
    cases i with
    | zero =>
      simp only [List.get] at hun
      simp [List.set, List.filter_cons, markSpent, hun, Nat.add_comm]
    | succ j =>
      have hj : j < s.length := by simpa using hi
      simp only [List.get_eq_getElem, List.getElem_cons_succ] at hun ⊢
      have hrec := ih j hj hun
      simp only [List.get_eq_getElem] at hrec
      by_cases hs : e.isSpent <;>
        simp [List.set, List.filter_cons, hs] <;> omega

/-- A sample matched output whose indexer-reported spent flag is true. -/
def sampleSpent : SilentPaymentUTXO :=
  { txid := "aa", vout := 0, value := 7, pubKey := [], blockHeight := 1,
    blockHash := "bb", tweak := [(1 : Byte)], isSpent := true }

/-- A sample unspent matched output. -/
def sampleUnspent : SilentPaymentUTXO :=
  { txid := "aa", vout := 0, value := 5, pubKey := [], blockHeight := 1,
    blockHash := "bb", tweak := [(1 : Byte)], isSpent := false }

/-- A sample serialized entry with canonical lowercase hex tweak. -/
def sampleSerial : SilentPaymentUTXOSerializable :=
  { txid := "cc", vout := 0, value := 5, pubKey := [], blockHeight := 1,
    blockHash := "dd", tweakHex := ['0', '1'], isSpent := false }

/-- A serialized entry whose hex tweak uses uppercase digits: valid for
`Buffer.from` decoding but not equal to its lowercase re-encoding. -/
def upperHex : SilentPaymentUTXOSerializable :=
  { txid := "ee", vout := 0, value := 1, pubKey := [], blockHeight := 0,
    blockHash := "ff", tweakHex := ['A', 'B'], isSpent := false }

/-- Claim C3, counterexample: for a record whose isSpent flag is true, the two
`add` calls still return true then false, but `getAll().length` does not grow
by one (spent entries are filtered out of `getAll`). -/
theorem add_spent_record_counterexample :
    (UTXORepository.empty.add sampleSpent).1 = true
    ∧ ((UTXORepository.empty.add sampleSpent).2.add sampleSpent).1 = false
    ∧ ((UTXORepository.empty.add sampleSpent).2.add sampleSpent).2.getAll.length
        ≠ UTXORepository.empty.getAll.length + 1 := by
  decide

/-- Claim C3, amended: on a repository with no entry for (txid, vout), adding
the same record twice returns true then false, and `getAll().length` grows by
one exactly when the record is unspent (by zero when it is spent). -/
theorem add_twice_idempotent (r : UTXORepository) (u : SilentPaymentUTXO)
    (h : r.utxos.any (fun x => x.txid == u.txid && x.vout == u.vout) = false) :
    (r.add u).1 = true ∧ ((r.add u).2.add u).1 = false
    ∧ ((r.add u).2.add u).2.getAll.length
        = r.getAll.length + (if u.isSpent then 0 else 1) := by
  refine ⟨?_, ?_, ?_⟩
  · simp [UTXORepository.add, h]
  · simp [UTXORepository.add, h]
  · cases hs : u.isSpent <;>
      simp [UTXORepository.add, UTXORepository.getAll, h, List.filter_append,
        List.filter_cons, hs]

/-- Witness for the amended claim C3, at a fresh repository and an unspent
record. -/
theorem add_twice_idempotent_witness :
    (UTXORepository.empty.add sampleUnspent).1 = true
    ∧ ((UTXORepository.empty.add sampleUnspent).2.add sampleUnspent).1 = false
    ∧ ((UTXORepository.empty.add sampleUnspent).2.add sampleUnspent).2.getAll.length
        = UTXORepository.empty.getAll.length + 1 := by
  have h := add_twice_idempotent UTXORepository.empty sampleUnspent (by decide)
  simpa [sampleUnspent] using h

/-- Claim C4: after any sequence of `add` calls on a fresh repository, loading
back `getSerializable()` reproduces the unspent set and the balance, and hex
encoding of tweak bytes round-trips losslessly. -/
theorem serialization_roundtrip (us : List SilentPaymentUTXO) :
    (UTXORepository.loadFromSerializable
        (addAll UTXORepository.empty us).getSerializable).getAll
      = (addAll UTXORepository.empty us).getAll
    ∧ (UTXORepository.loadFromSerializable
        (addAll UTXORepository.empty us).getSerializable).getBalance
      = (addAll UTXORepository.empty us).getBalance
    ∧ ∀ bs : List Byte, hexDecode (hexEncode bs) = bs := by
  have h := load_getSerializable_utxos us
  refine ⟨?_, ?_, hexDecode_hexEncode⟩
  · simp [UTXORepository.getAll, h]
  · simp [UTXORepository.getBalance, h]

/-- Claim C5: the balance is the sum of `value` over unspent entries for every
repository built by `add` calls, and reloading with one previously unspent
entry marked spent lowers the balance by exactly the value of that entry. -/
theorem balance_sums_unspent_values :
    (∀ us : List SilentPaymentUTXO,
      (addAll UTXORepository.empty us).getBalance
        = (((addAll UTXORepository.empty us).utxos.filter (fun u => !u.isSpent)).map
            (fun u => u.value)).sum)
    ∧ ∀ (s : List SilentPaymentUTXOSerializable) (i : Nat) (hi : i < s.length),
        (s.get ⟨i, hi⟩).isSpent = false →
        (UTXORepository.loadFromSerializable
            (s.set i (markSpent (s.get ⟨i, hi⟩)))).getBalance
          + (s.get ⟨i, hi⟩).value
        = (UTXORepository.loadFromSerializable s).getBalance := by
  refine ⟨fun us => getBalance_eq_sum _, fun s i hi hun => ?_⟩
  rw [getBalance_load, getBalance_load]
  exact sum_set_spent s i hi hun

/-- Witness for claim C5, at a one-entry repository reloaded with the entry
marked spent. -/
theorem balance_sums_unspent_values_witness :
    (UTXORepository.loadFromSerializable [markSpent sampleSerial]).getBalance + 5
      = (UTXORepository.loadFromSerializable [sampleSerial]).getBalance := by
  have h := balance_sums_unspent_values.2 [sampleSerial] 0 (by decide) (by decide)
  simpa [sampleSerial] using h

/-- Claim C9, counterexample: a `loadFromSerializable` with an uppercase hex
tweak leaves the stored tweakHex different from the lowercase hex
re-encoding of the runtime tweak bytes. -/
theorem tweakHex_reencoding_counterexample :
    (runRepoOps [RepoOp.load [upperHex]]).utxosSerializable.map (fun e => e.tweakHex)
      ≠ (runRepoOps [RepoOp.load [upperHex]]).utxos.map (fun u => hexEncode u.tweak) := by
  decide

/-- Claim C9, amended: after every sequence of add, clear and
loadFromSerializable operations, the two lists have equal length and
corresponding entries agree on every plain field, with the runtime tweak equal
to the hex decoding of the stored tweakHex. -/
theorem runtime_serializable_lists_aligned (ops : List RepoOp) :
    (runRepoOps ops).utxos.length = (runRepoOps ops).utxosSerializable.length
    ∧ List.Forall₂ utxoAligned (runRepoOps ops).utxos
        (runRepoOps ops).utxosSerializable := by
  have h := repoSync_runRepoOps ops
  exact ⟨h.length_eq, h⟩

/-! ## Key derivation (src/helpers/silent-payments/SilentPaymentKeyDerivation.ts)

The elliptic-curve collaborators (bip32 seed expansion, the two fixed
derivation paths, public-key projection, address encoding) are pure library
functions; they are modelled as an abstract bundle of functions, so every
theorem below holds for any such primitives. -/

/-- The external cryptographic collaborators used by key derivation:
`bip32.fromSeed`, `derivePath` at the fixed spend and scan paths, the
public/private projections of a bip32 node, and
`encodeSilentPaymentAddress`. -/
structure CryptoPrims (Seed Root Key Pub Priv : Type) where
  fromSeed : Seed → Root
  deriveSpendKey : Root → Key
  deriveScanKey : Root → Key
  publicKey : Key → Pub
  privateKey : Key → Priv
  encodeAddress : Pub → Pub → String

/-- Mutable state of a `SilentPaymentKeyDerivation` instance: the constructor
seed plus the three nullable caches. -/
structure KeyDerivationState (Seed Key : Type) where
  seed : Seed
  scanKey : Option Key
  spendKey : Option Key
  silentPaymentAddress : Option String
deriving Repr

variable {Seed Root Key Pub Priv : Type}

/-- A freshly constructed instance holding `seed`. -/
def KeyDerivationState.init (seed : Seed) : KeyDerivationState Seed Key :=
  ⟨seed, none, none, none⟩

/-- `deriveKeys()`: a no-op when both keys are cached, otherwise derives both
from the seed. -/
def deriveKeys (P : CryptoPrims Seed Root Key Pub Priv)
    (s : KeyDerivationState Seed Key) : KeyDerivationState Seed Key :=
  if s.scanKey.isSome && s.spendKey.isSome then s
  else
    let root := P.fromSeed s.seed
    { s with spendKey := some (P.deriveSpendKey root),
             scanKey := some (P.deriveScanKey root) }

/-- `getScanPrivateKey()`: value returned together with the updated state. -/
def getScanPrivateKey [Inhabited Key] (P : CryptoPrims Seed Root Key Pub Priv)
    (s : KeyDerivationState Seed Key) : Priv × KeyDerivationState Seed Key :=
  let s2 := deriveKeys P s
  (P.privateKey s2.scanKey.get!, s2)

/-- `getSpendPrivateKey()`. -/
def getSpendPrivateKey [Inhabited Key] (P : CryptoPrims Seed Root Key Pub Priv)
    (s : KeyDerivationState Seed Key) : Priv × KeyDerivationState Seed Key :=
  let s2 := deriveKeys P s
  (P.privateKey s2.spendKey.get!, s2)

/-- `getScanPublicKey()`. -/
def getScanPublicKey [Inhabited Key] (P : CryptoPrims Seed Root Key Pub Priv)
    (s : KeyDerivationState Seed Key) : Pub × KeyDerivationState Seed Key :=
  let s2 := deriveKeys P s
  (P.publicKey s2.scanKey.get!, s2)

/-- `getSpendPublicKey()`. -/
def getSpendPublicKey [Inhabited Key] (P : CryptoPrims Seed Root Key Pub Priv)
    (s : KeyDerivationState Seed Key) : Pub × KeyDerivationState Seed Key :=
  let s2 := deriveKeys P s
  (P.publicKey s2.spendKey.get!, s2)

/-- `getSilentPaymentAddress()`: returns the cached address, otherwise derives
keys, encodes and caches the address. -/
def getSilentPaymentAddress [Inhabited Key] (P : CryptoPrims Seed Root Key Pub Priv)
    (s : KeyDerivationState Seed Key) : String × KeyDerivationState Seed Key :=
  match s.silentPaymentAddress with
  | some a => (a, s)
  | none =>
    let s2 := deriveKeys P s
    let a := P.encodeAddress (P.publicKey s2.scanKey.get!) (P.publicKey s2.spendKey.get!)
    (a, { s2 with silentPaymentAddress := some a })

/-- `clear()`: drops the cached keys and the cached address. -/
def KeyDerivationState.clear (s : KeyDerivationState Seed Key) :
    KeyDerivationState Seed Key :=
  { s with scanKey := none, spendKey := none, silentPaymentAddress := none }

/-- The scan key `deriveKeys` computes for a given seed. -/
def scanKeyOf (P : CryptoPrims Seed Root Key Pub Priv) (seed : Seed) : Key :=
  P.deriveScanKey (P.fromSeed seed)

/-- The spend key `deriveKeys` computes for a given seed. -/
def spendKeyOf (P : CryptoPrims Seed Root Key Pub Priv) (seed : Seed) : Key :=
  P.deriveSpendKey (P.fromSeed seed)

/-- The address a fresh instance computes for a given seed. -/
def addressOf (P : CryptoPrims Seed Root Key Pub Priv) (seed : Seed) : String :=
  P.encodeAddress (P.publicKey (scanKeyOf P seed)) (P.publicKey (spendKeyOf P seed))

/-- The public methods of the class, as operations on the state. -/
inductive KDOp where
  | scanPriv
  | spendPriv
  | scanPub
  | spendPub
  | addr
  | clr

def applyKDOp [Inhabited Key] (P : CryptoPrims Seed Root Key Pub Priv)
    (s : KeyDerivationState Seed Key) : KDOp → KeyDerivationState Seed Key
  | .scanPriv => (getScanPrivateKey P s).2
  | .spendPriv => (getSpendPrivateKey P s).2
  | .scanPub => (getScanPublicKey P s).2
  | .spendPub => (getSpendPublicKey P s).2
  | .addr => (getSilentPaymentAddress P s).2
  | .clr => s.clear

/-- The state of an instance constructed from `seed` after a call history. -/
def runKDOps [Inhabited Key] (P : CryptoPrims Seed Root Key Pub Priv)
    (seed : Seed) (ops : List KDOp) : KeyDerivationState Seed Key :=
  ops.foldl (applyKDOp P) (KeyDerivationState.init seed)

/-- Cache invariant of an instance built from `seed`: the caches are either
empty or hold exactly the canonical values for `seed`. -/
def KDGood (P : CryptoPrims Seed Root Key Pub Priv) (seed : Seed)
    (s : KeyDerivationState Seed Key) : Prop :=
  s.seed = seed
  ∧ ((s.scanKey = none ∧ s.spendKey = none)
      ∨ (s.scanKey = some (scanKeyOf P seed) ∧ s.spendKey = some (spendKeyOf P seed)))
  ∧ (s.silentPaymentAddress = none ∨ s.silentPaymentAddress = some (addressOf P seed))

theorem kdGood_init (P : CryptoPrims Seed Root Key Pub Priv) (seed : Seed) :
    KDGood P seed (KeyDerivationState.init seed) :=
  ⟨rfl, Or.inl ⟨rfl, rfl⟩, Or.inl rfl⟩

theorem kdGood_clear (P : CryptoPrims Seed Root Key Pub Priv) (seed : Seed)
    {s : KeyDerivationState Seed Key} (h : KDGood P seed s) :
    KDGood P seed s.clear :=
  ⟨h.1, Or.inl ⟨rfl, rfl⟩, Or.inl rfl⟩

theorem deriveKeys_of_good (P : CryptoPrims Seed Root Key Pub Priv) (seed : Seed)
    {s : KeyDerivationState Seed Key} (h : KDGood P seed s) :
    (deriveKeys P s).scanKey = some (scanKeyOf P seed)
    ∧ (deriveKeys P s).spendKey = some (spendKeyOf P seed)
    ∧ (deriveKeys P s).seed = seed
    ∧ (deriveKeys P s).silentPaymentAddress = s.silentPaymentAddress := by
  obtain ⟨hs, hk, _⟩ := h
  cases hk with
  | inl hnone =>
    simp [deriveKeys, hnone.1, hnone.2, hs, scanKeyOf, spendKeyOf]
  | inr hsome =>
    simp [deriveKeys, hsome.1, hsome.2, hs]

theorem kdGood_deriveKeys (P : CryptoPrims Seed Root Key Pub Priv) (seed : Seed)
    {s : KeyDerivationState Seed Key} (h : KDGood P seed s) :
    KDGood P seed (deriveKeys P s) := by
  obtain ⟨h1, h2, h3, h4⟩ := deriveKeys_of_good P seed h
  exact ⟨h3, Or.inr ⟨h1, h2⟩, h4 ▸ h.2.2⟩

theorem getSilentPaymentAddress_of_good [Inhabited Key]
    (P : CryptoPrims Seed Root Key Pub Priv) (seed : Seed)
    {s : KeyDerivationState Seed Key} (h : KDGood P seed s) :
    (getSilentPaymentAddress P s).1 = addressOf P seed
    ∧ KDGood P seed (getSilentPaymentAddress P s).2 := by
  obtain ⟨h1, h2, h3, h4⟩ := deriveKeys_of_good P seed h
  have hgood := kdGood_deriveKeys P seed h
  cases ha : s.silentPaymentAddress with
  | some a =>
    have : a = addressOf P seed := by
      rcases h.2.2 with hn | hsome
      · rw [ha] at hn; cases hn
      · rw [ha] at hsome; injection hsome
    simp [getSilentPaymentAddress, ha, this, h]
  | none =>
    simp only [getSilentPaymentAddress, ha]
    constructor
    · simp [h1, h2, addressOf]
    · refine ⟨hgood.1, hgood.2.1, Or.inr ?_⟩
      simp [h1, h2, addressOf]

theorem kdGood_applyKDOp [Inhabited Key] (P : CryptoPrims Seed Root Key Pub Priv)
    (seed : Seed) {s : KeyDerivationState Seed Key} (h : KDGood P seed s)
    (op : KDOp) : KDGood P seed (applyKDOp P s op) := by
  cases op with
  | clr => exact kdGood_clear P seed h
  | addr => exact (getSilentPaymentAddress_of_good P seed h).2
  | scanPriv => exact kdGood_deriveKeys P seed h
  | spendPriv => exact kdGood_deriveKeys P seed h
  | scanPub => exact kdGood_deriveKeys P seed h
  | spendPub => exact kdGood_deriveKeys P seed h

theorem kdGood_runKDOps [Inhabited Key] (P : CryptoPrims Seed Root Key Pub Priv)
    (seed : Seed) (ops : List KDOp) :
    KDGood P seed (runKDOps P seed ops) := by
  have base := kdGood_init P seed
  rw [runKDOps]
  generalize KeyDerivationState.init seed = s at base ⊢
  induction ops generalizing s with
  | nil => exact base
  | cons op ops ih => exact ih _ (kdGood_applyKDOp P seed base op)

theorem getScanPrivateKey_of_good [Inhabited Key]
    (P : CryptoPrims Seed Root Key Pub Priv) (seed : Seed)
    {s : KeyDerivationState Seed Key} (h : KDGood P seed s) :
    (getScanPrivateKey P s).1 = P.privateKey (scanKeyOf P seed) := by
  obtain ⟨h1, _, _, _⟩ := deriveKeys_of_good P seed h
  simp [getScanPrivateKey, h1]

theorem getSpendPrivateKey_of_good [Inhabited Key]
    (P : CryptoPrims Seed Root Key Pub Priv) (seed : Seed)
    {s : KeyDerivationState Seed Key} (h : KDGood P seed s) :
    (getSpendPrivateKey P s).1 = P.privateKey (spendKeyOf P seed) := by
  obtain ⟨_, h2, _, _⟩ := deriveKeys_of_good P seed h
  simp [getSpendPrivateKey, h2]

theorem getScanPublicKey_of_good [Inhabited Key]
    (P : CryptoPrims Seed Root Key Pub Priv) (seed : Seed)
    {s : KeyDerivationState Seed Key} (h : KDGood P seed s) :
    (getScanPublicKey P s).1 = P.publicKey (scanKeyOf P seed) := by
  obtain ⟨h1, _, _, _⟩ := deriveKeys_of_good P seed h
  simp [getScanPublicKey, h1]

theorem getSpendPublicKey_of_good [Inhabited Key]
    (P : CryptoPrims Seed Root Key Pub Priv) (seed : Seed)
    {s : KeyDerivationState Seed Key} (h : KDGood P seed s) :
    (getSpendPublicKey P s).1 = P.publicKey (spendKeyOf P seed) := by
  obtain ⟨_, h2, _, _⟩ := deriveKeys_of_good P seed h
  simp [getSpendPublicKey, h2]

/-- Claim C6: for a fixed seed and any two call histories (possibly including
`clear`), the address returned is the same — also right after a `clear` — and
the scan and spend private and public keys agree, for any cryptographic
primitives. -/
theorem key_derivation_deterministic [Inhabited Key]
    (P : CryptoPrims Seed Root Key Pub Priv) (seed : Seed)
    (ops1 ops2 : List KDOp) :
    (getSilentPaymentAddress P (runKDOps P seed ops1)).1
      = (getSilentPaymentAddress P (runKDOps P seed ops2)).1
    ∧ (getSilentPaymentAddress P (runKDOps P seed ops1).clear).1
      = (getSilentPaymentAddress P (runKDOps P seed ops2)).1
    ∧ (getScanPrivateKey P (runKDOps P seed ops1)).1
      = (getScanPrivateKey P (runKDOps P seed ops2)).1
    ∧ (getSpendPrivateKey P (runKDOps P seed ops1)).1
      = (getSpendPrivateKey P (runKDOps P seed ops2)).1
    ∧ (getScanPublicKey P (runKDOps P seed ops1)).1
      = (getScanPublicKey P (runKDOps P seed ops2)).1
    ∧ (getSpendPublicKey P (runKDOps P seed ops1)).1
      = (getSpendPublicKey P (runKDOps P seed ops2)).1 := by
  have g1 := kdGood_runKDOps P seed ops1
  have g2 := kdGood_runKDOps P seed ops2
  have g1c := kdGood_clear P seed g1
  refine ⟨?_, ?_, ?_, ?_, ?_, ?_⟩
  · rw [(getSilentPaymentAddress_of_good P seed g1).1,
      (getSilentPaymentAddress_of_good P seed g2).1]
  · rw [(getSilentPaymentAddress_of_good P seed g1c).1,
      (getSilentPaymentAddress_of_good P seed g2).1]
  · rw [getScanPrivateKey_of_good P seed g1, getScanPrivateKey_of_good P seed g2]
  · rw [getSpendPrivateKey_of_good P seed g1, getSpendPrivateKey_of_good P seed g2]
  · rw [getScanPublicKey_of_good P seed g1, getScanPublicKey_of_good P seed g2]
  · rw [getSpendPublicKey_of_good P seed g1, getSpendPublicKey_of_good P seed g2]

/-- Toy instantiation of the cryptographic primitives, for concrete checks. -/
def demoPrims : CryptoPrims Unit Unit Nat Nat Nat :=
  { fromSeed := fun _ => (), deriveSpendKey := fun _ => 1, deriveScanKey := fun _ => 2,
    publicKey := fun k => k + 10, privateKey := fun k => k, encodeAddress := fun _ _ => "sp" }

/-- Witness for claim C6 at a concrete primitive bundle and call histories. -/
theorem key_derivation_deterministic_witness :
    (getSilentPaymentAddress demoPrims
        (runKDOps demoPrims () [KDOp.addr, KDOp.clr])).1
      = (getSilentPaymentAddress demoPrims (runKDOps demoPrims () [])).1 :=
  (key_derivation_deterministic demoPrims () [KDOp.addr, KDOp.clr] []).1

/-! ## Transaction processor (src/helpers/silent-payments/TransactionProcessor.ts) -/

/-- A candidate output as delivered by the indexer (`IndexerOutput`). -/
structure IndexerOutput where
  transactionId : String
  vout : Nat
  pubKey : List Char
  value : Nat
  isSpent : Bool
deriving DecidableEq, Repr

/-- One transaction as fed to `TransactionProcessor.process`. -/
structure IndexerTransaction where
  blockHeight : Nat
  blockHash : String
  txid : String
  scanTweak : List Char
  outputs : List IndexerOutput
deriving DecidableEq, Repr

/-- `TransactionProcessor.process`: validates the decoded scan tweak length,
invokes the external scanning primitive (`scanOutputsWithTweak`, which may
fail on malformed keys — the `Except` models the thrown exception, and the
final `match` the surrounding try/catch), and converts the matched output map
into UTXO records. -/
def process {ε : Type} (scanPrivateKey spendPublicKey : List Byte)
    (scanOutputsWithTweak :
      List Byte → List Byte → List Byte → List (List Byte) →
        Except ε (List (List Char × List Byte)))
    (tx : IndexerTransaction) : List SilentPaymentUTXO :=
  let scanTweak := hexDecode tx.scanTweak
  if scanTweak.length ≠ 33 then []
  else
    let outputPubKeys := tx.outputs.map (fun o => hexDecode (['0', '2'] ++ o.pubKey))
    match scanOutputsWithTweak scanPrivateKey spendPublicKey scanTweak outputPubKeys with
    | .error _ => []
    | .ok matchedOutputs =>
      if matchedOutputs.length = 0 then []
      else
        matchedOutputs.foldl (fun acc p =>
          match tx.outputs.find? (fun o => o.pubKey == p.1.drop 2) with
          | some o =>
            acc ++ [{ txid := tx.txid, vout := o.vout, value := o.value,
                      pubKey := o.pubKey, blockHeight := tx.blockHeight,
                      blockHash := tx.blockHash, tweak := p.2, isSpent := o.isSpent }]
          | none => acc) []

/-! ## Scan coordinator (src/blue_modules/SilentPaymentIndexer.ts) -/

/-- One transaction of a `/transactions/height/...` response
(`IndexerTransactionData`). -/
structure IndexerTransactionData where
  id : String
  blockHeight : Nat
  blockHash : String
  scanTweak : List Char
  outputs : List IndexerOutput
deriving DecidableEq, Repr

/-- Body of a `/transactions/height/...` response. -/
structure TransactionResponse where
  transactions : List IndexerTransactionData
deriving DecidableEq, Repr

/-- `response.ok`: the HTTP status is in the 2xx range. -/
def responseOk (status : Nat) : Bool := 200 ≤ status && status < 300

/-- `IndexerHttpClient.executeGet`: returns the body on a 2xx status and
throws (modelled as `Except.error`) on every other status, 429 included. -/
def executeGet (status : Nat) (body : TransactionResponse) :
    Except Nat TransactionResponse :=
  if responseOk status then .ok body else .error status

/-- The loop of `scanBlocks` in the backward direction: one fetch per height
from `h` down while `h` is at least `endHeight`; a non-2xx response (the
thrown error) is caught and the height is skipped. Returns the heights fetched
in order and the accumulated transactions. -/
def scanBlocksBackward (fetch : Int → Nat × TransactionResponse) (endHeight : Int)
    (h : Int) : List Int × List IndexerTransactionData :=
  if _hge : endHeight ≤ h then
    match executeGet (fetch h).1 (fetch h).2 with
    | .ok response =>
      if response.transactions.length > 0 then
        (h :: (scanBlocksBackward fetch endHeight (h - 1)).1,
         response.transactions ++ (scanBlocksBackward fetch endHeight (h - 1)).2)
      else
        (h :: (scanBlocksBackward fetch endHeight (h - 1)).1,
         (scanBlocksBackward fetch endHeight (h - 1)).2)
    | .error _ =>
      (h :: (scanBlocksBackward fetch endHeight (h - 1)).1,
       (scanBlocksBackward fetch endHeight (h - 1)).2)
  else ([], [])
termination_by (h + 1 - endHeight).toNat
decreasing_by omega

/-- `scanBackwards(maxBlocks, fromHeight)`: scans from `fromHeight` down to
`Math.max(0, fromHeight - maxBlocks + 1)`. -/
def scanBackwards (fetch : Int → Nat × TransactionResponse) (maxBlocks : Nat)
    (fromHeight : Int) : List Int × List IndexerTransactionData :=
  scanBlocksBackward fetch (max 0 (fromHeight - maxBlocks + 1)) fromHeight

/-- The descending enumeration from `h` down to `e`. -/
def descRange (e h : Int) : List Int :=
  (List.range (h + 1 - e).toNat).map (fun (i : Nat) => h - (i : Int))

theorem descRange_mem (e h x : Int) : x ∈ descRange e h ↔ e ≤ x ∧ x ≤ h := by
  simp only [descRange, List.mem_map, List.mem_range]
  constructor
  · rintro ⟨i, hi, rfl⟩
    omega
  · rintro ⟨hx1, hx2⟩
    refine ⟨(h - x).toNat, by omega, ?_⟩
    omega

theorem descRange_pairwise (e h : Int) : (descRange e h).Pairwise (· > ·) :=
  (List.pairwise_lt_range _).map _ (fun a b hab => by omega)

theorem descRange_nodup (e h : Int) : (descRange e h).Nodup :=
  (descRange_pairwise e h).imp (fun hab => by omega)

theorem descRange_count (e h x : Int) :
    (descRange e h).count x = if e ≤ x ∧ x ≤ h then 1 else 0 := by
  split
  · rename_i hx
    exact List.count_eq_one_of_mem (descRange_nodup e h) ((descRange_mem e h x).mpr hx)
  · rename_i hx
    exact List.count_eq_zero_of_not_mem (fun hm => hx ((descRange_mem e h x).mp hm))

theorem descRange_cons (e h : Int) (he : e ≤ h) :
    descRange e h = h :: descRange e (h - 1) := by
  have hn : (h + 1 - e).toNat = (h - e).toNat + 1 := by omega
  have hn2 : (h - 1 + 1 - e).toNat = (h - e).toNat := by omega
  rw [descRange, descRange, hn, hn2, List.range_succ_eq_map, List.map_cons, List.map_map]
  refine congrArg₂ List.cons ?_ (List.map_congr_left fun i _ => ?_)
  · omega
  · simp only [Function.comp, Nat.succ_eq_add_one]
    omega

theorem executeGet_ok_iff (st : Nat) (b r : TransactionResponse) :
    executeGet st b = .ok r ↔ responseOk st = true ∧ r = b := by
  unfold executeGet
  split <;> rename_i hok
  · simp [hok, eq_comm]
  · simp [hok]

theorem executeGet_err (st : Nat) (b : TransactionResponse) (err : Nat)
    (h : executeGet st b = .error err) : responseOk st = false := by
  unfold executeGet at h
  split at h <;> simp_all

theorem scanBlocksBackward_fst (fetch : Int → Nat × TransactionResponse)
    (e h : Int) : (scanBlocksBackward fetch e h).1 = descRange e h := by
  generalize hn : (h + 1 - e).toNat = n
  induction n generalizing h with
  | zero =>
    rw [scanBlocksBackward, dif_neg (by omega : ¬ e ≤ h)]
    simp [descRange, show (h + 1 - e).toNat = 0 by omega]
  | succ n ih =>
    have he : e ≤ h := by omega
    rw [scanBlocksBackward, dif_pos he, descRange_cons e h he]
    have ht := ih (h - 1) (by omega)
    cases executeGet (fetch h).1 (fetch h).2 with
    | ok r =>
      dsimp only
      split <;> simp [ht]
    | error err => simp [ht]

theorem scanBlocksBackward_snd (fetch : Int → Nat × TransactionResponse)
    (e h : Int) :
    (scanBlocksBackward fetch e h).2
      = (descRange e h).flatMap
          (fun x => if responseOk (fetch x).1 then (fetch x).2.transactions else []) := by
  generalize hn : (h + 1 - e).toNat = n
  induction n generalizing h with
  | zero =>
    rw [scanBlocksBackward, dif_neg (by omega : ¬ e ≤ h)]
    simp [descRange, show (h + 1 - e).toNat = 0 by omega]
  | succ n ih =>
    have he : e ≤ h := by omega
    rw [scanBlocksBackward, dif_pos he, descRange_cons e h he, List.flatMap_cons]
    have ht := ih (h - 1) (by omega)
    cases hm : executeGet (fetch h).1 (fetch h).2 with
    | ok r =>
      obtain ⟨hok, hr⟩ := (executeGet_ok_iff (fetch h).1 (fetch h).2 r).mp hm
      subst hr
      dsimp only
      split
      · simp [ht, hok]
      · rename_i hlen
        have hnil : (fetch h).2.transactions = [] := by
          cases hr2 : (fetch h).2.transactions with
          | nil => rfl
          | cons a l => rw [hr2] at hlen; simp at hlen
        simp [ht, hok, hnil]
    | error err =>
      have hbad := executeGet_err (fetch h).1 (fetch h).2 err hm
      simp [ht, hbad]

/-- A one-transaction response body for height `h`. -/
def txAt (h : Int) : IndexerTransactionData :=
  { id := "tx", blockHeight := h.toNat, blockHash := "hash",
    scanTweak := ['0', '0'], outputs := [] }

/-- A simulated indexer that rate-limits (HTTP 429) exactly at height 118 and
answers 200 with one transaction everywhere else. -/
def fetch429 : Int → Nat × TransactionResponse := fun h =>
  if h = 118 then (429, ⟨[txAt h]⟩) else (200, ⟨[txAt h]⟩)

/-- An indexer answering 200 with an empty transaction list at every height. -/
def fetchEmpty : Int → Nat × TransactionResponse := fun _ => (200, ⟨[]⟩)

/-- Claim C1, counterexample: scanning backwards from tip 118 over 19 blocks
against an indexer that replies 429 at height 118, the coordinator fetches
height 118 exactly once (it does not pause and retry it) and the transactions
of height 118 are dropped while the scan moves on to the other heights. -/
theorem rate_limited_height_not_retried :
    ((scanBackwards fetch429 19 118).1.count 118) = 1
    ∧ txAt 118 ∉ (scanBackwards fetch429 19 118).2
    ∧ txAt 117 ∈ (scanBackwards fetch429 19 118).2 := by
  have h1 := scanBlocksBackward_fst fetch429 (max 0 ((118 : Int) - (19 : Nat) + 1)) 118
  have h2 := scanBlocksBackward_snd fetch429 (max 0 ((118 : Int) - (19 : Nat) + 1)) 118
  rw [scanBackwards]
  refine ⟨?_, ?_, ?_⟩
  · rw [h1]; decide
  · rw [h2]; decide
  · rw [h2]; decide

/-- Claim C1, amended: a 429 response is treated like every other non-2xx
status — the fetch for that height fails, the height is fetched exactly once
(never retried), contributes no transactions, and the scan continues through
the remaining heights; only 2xx heights contribute their transactions. -/
theorem non_ok_height_skipped_once (fetch : Int → Nat × TransactionResponse)
    (maxBlocks : Nat) (fromHeight x : Int) :
    ((scanBackwards fetch maxBlocks fromHeight).1.count x)
      = (if max 0 (fromHeight - maxBlocks + 1) ≤ x ∧ x ≤ fromHeight then 1 else 0)
    ∧ (scanBackwards fetch maxBlocks fromHeight).2
      = ((scanBackwards fetch maxBlocks fromHeight).1).flatMap
          (fun h => if responseOk (fetch h).1 then (fetch h).2.transactions else []) := by
  rw [scanBackwards, scanBlocksBackward_fst, scanBlocksBackward_snd]
  exact ⟨descRange_count _ _ _, rfl⟩

/-- Claim C2: for every tip and block budget, the backward scan fetches the
heights from the tip down to `max 0 (tip - maxBlocks + 1)`, each exactly once,
in strictly descending order, for any simulated responses; in particular with
tip 118 and `maxBlocks = 19` it visits 118 down to 100. -/
theorem backward_scan_visits_range_once (fetch : Int → Nat × TransactionResponse)
    (maxBlocks tip : Nat) :
    ((scanBackwards fetch maxBlocks tip).1).Pairwise (· > ·)
    ∧ ((scanBackwards fetch maxBlocks tip).1).Nodup
    ∧ (∀ x : Int, x ∈ (scanBackwards fetch maxBlocks tip).1 ↔
        max 0 ((tip : Int) - maxBlocks + 1) ≤ x ∧ x ≤ tip)
    ∧ (scanBackwards fetchEmpty 19 118).1
        = [118, 117, 116, 115, 114, 113, 112, 111, 110, 109, 108, 107, 106,
           105, 104, 103, 102, 101, 100] := by
  rw [scanBackwards, scanBlocksBackward_fst]
  refine ⟨descRange_pairwise _ _, descRange_nodup _ _,
    fun x => descRange_mem _ _ x, ?_⟩
  rw [scanBackwards, scanBlocksBackward_fst]
  decide

/-- Claim C7: `process` returns the empty match list when the decoded scan
tweak is not exactly 33 bytes, and likewise when the external scanning
primitive fails (the thrown exception is caught); in both cases the
transaction degrades to zero matches instead of aborting. -/
theorem process_tweak_guard_and_catch {ε : Type}
    (scanPrivateKey spendPublicKey : List Byte)
    (scanOutputsWithTweak :
      List Byte → List Byte → List Byte → List (List Byte) →
        Except ε (List (List Char × List Byte)))
    (tx : IndexerTransaction) :
    ((hexDecode tx.scanTweak).length ≠ 33 →
      process scanPrivateKey spendPublicKey scanOutputsWithTweak tx = [])
    ∧ (∀ err : ε,
        scanOutputsWithTweak scanPrivateKey spendPublicKey (hexDecode tx.scanTweak)
            (tx.outputs.map (fun o => hexDecode (['0', '2'] ++ o.pubKey)))
          = .error err →
        process scanPrivateKey spendPublicKey scanOutputsWithTweak tx = []) := by
  constructor
  · intro h
    simp [process, h]
  · intro err herr
    by_cases h : (hexDecode tx.scanTweak).length = 33
    · simp only [List.cons_append, List.nil_append] at herr
      simp [process, h, herr]
    · simp [process, h]

/-- A scanning primitive that always throws, as on malformed key bytes. -/
def demoScanFail :
    List Byte → List Byte → List Byte → List (List Byte) →
      Except Unit (List (List Char × List Byte)) :=
  fun _ _ _ _ => .error ()

/-- A transaction whose scan tweak decodes to a single byte. -/
def demoTxShortTweak : IndexerTransaction :=
  { blockHeight := 0, blockHash := "h0", txid := "t0",
    scanTweak := ['0', '0'], outputs := [] }

/-- A transaction whose scan tweak decodes to exactly 33 zero bytes. -/
def demoTx33 : IndexerTransaction :=
  { blockHeight := 0, blockHash := "h0", txid := "t1",
    scanTweak := List.replicate 66 '0', outputs := [] }

/-- Witness for claim C7: both guards fire at concrete transactions. -/
theorem process_tweak_guard_and_catch_witness :
    process [] [] demoScanFail demoTxShortTweak = []
    ∧ process [] [] demoScanFail demoTx33 = [] :=
  ⟨(process_tweak_guard_and_catch [] [] demoScanFail demoTxShortTweak).1 (by decide),
   (process_tweak_guard_and_catch [] [] demoScanFail demoTx33).2 () rfl⟩

/-! ## Wallet scan orchestration (HDSilentPaymentsWallet) -/

/-- The wallet state relevant to scanning: the UTXO repository and the
`lastScannedBlock` marker. -/
structure WalletState where
  repo : UTXORepository
  lastScannedBlock : Nat
deriving Repr

/-- The `IndexerTransaction` built inside `processAndAddTransactions`: the
block height falls back to the processed height when the per-transaction
field is absent (falsy, i.e. zero). -/
def toIndexerTransaction (tx : IndexerTransactionData) (blockHeight : Nat) :
    IndexerTransaction :=
  { blockHeight := if tx.blockHeight = 0 then blockHeight else tx.blockHeight,
    blockHash := tx.blockHash, txid := tx.id,
    scanTweak := tx.scanTweak, outputs := tx.outputs }

/-- Body of the transaction loop in `processAndAddTransactions`: transactions
with a non-empty scan tweak and at least one output are processed and every
returned match is committed via `add`. -/
def commitTx (proc : IndexerTransaction → List SilentPaymentUTXO)
    (blockHeight : Nat) (r : UTXORepository) (tx : IndexerTransactionData) :
    UTXORepository :=
  if tx.scanTweak.length ≠ 0 ∧ tx.outputs.length > 0 then
    (proc (toIndexerTransaction tx blockHeight)).foldl (fun r2 u => (r2.add u).2) r
  else r

/-- `processAndAddTransactions`: commits all matches of all transactions of a
block, then raises `lastScannedBlock` to the processed height when it is
greater. -/
def processAndAddTransactions (proc : IndexerTransaction → List SilentPaymentUTXO)
    (w : WalletState) (transactions : List IndexerTransactionData)
    (blockHeight : Nat) : WalletState :=
  { repo := transactions.foldl (commitTx proc blockHeight) w.repo,
    lastScannedBlock :=
      if blockHeight > w.lastScannedBlock then blockHeight else w.lastScannedBlock }

/-- `setLastScannedBlock(height)`: direct assignment. -/
def setLastScannedBlock (w : WalletState) (height : Nat) : WalletState :=
  { w with lastScannedBlock := height }

/-- `getLastScannedBlock()`. -/
def getLastScannedBlock (w : WalletState) : Nat := w.lastScannedBlock

/-- `clearCache()`: resets the repository and the scan marker. -/
def clearCache (_w : WalletState) : WalletState :=
  { repo := UTXORepository.empty, lastScannedBlock := 0 }

/-- The block-by-block loop of `scanBackwardsWithCallback` driving the wallet
callback: each 2xx response with a non-empty transaction list is processed
into the wallet, failed heights are skipped. -/
def scanWithCallback (fetch : Int → Nat × TransactionResponse)
    (proc : IndexerTransaction → List SilentPaymentUTXO) (endHeight : Int)
    (h : Int) (w : WalletState) : WalletState :=
  if _hge : endHeight ≤ h then
    match executeGet (fetch h).1 (fetch h).2 with
    | .ok response =>
      if response.transactions.length > 0 then
        scanWithCallback fetch proc endHeight (h - 1)
          (processAndAddTransactions proc w response.transactions h.toNat)
      else scanWithCallback fetch proc endHeight (h - 1) w
    | .error _ => scanWithCallback fetch proc endHeight (h - 1) w
  else w
termination_by (h + 1 - endHeight).toNat
decreasing_by all_goals omega

/-- `scanForPayments(maxBlocks)`: records the unspent count, runs the
backward callback scan from the tip, and returns the growth of the unspent
count together with the final state. -/
def scanForPayments (fetch : Int → Nat × TransactionResponse)
    (proc : IndexerTransaction → List SilentPaymentUTXO) (maxBlocks : Nat)
    (tip : Nat) (w : WalletState) : Nat × WalletState :=
  ((scanWithCallback fetch proc (max 0 ((tip : Int) - maxBlocks + 1)) tip w).repo.getAll.length
      - w.repo.getAll.length,
   scanWithCallback fetch proc (max 0 ((tip : Int) - maxBlocks + 1)) tip w)

theorem add_getAll_length_mono (r : UTXORepository) (u : SilentPaymentUTXO) :
    r.getAll.length ≤ ((r.add u).2).getAll.length := by
  unfold UTXORepository.add
  split
  · exact le_refl _
  · simp only [UTXORepository.getAll, List.filter_append, List.length_append]
    exact Nat.le_add_right _ _

theorem addFold_getAll_length_mono (us : List SilentPaymentUTXO) :
    ∀ r : UTXORepository,
      r.getAll.length ≤ (us.foldl (fun r2 u => (r2.add u).2) r).getAll.length := by
  induction us with
  | nil => intro r; exact le_refl _
  | cons u us ih =>
    intro r
    exact le_trans (add_getAll_length_mono r u) (ih _)

theorem commitTx_getAll_length_mono (proc : IndexerTransaction → List SilentPaymentUTXO)
    (blockHeight : Nat) (r : UTXORepository) (tx : IndexerTransactionData) :
    r.getAll.length ≤ (commitTx proc blockHeight r tx).getAll.length := by
  unfold commitTx
  split
  · exact addFold_getAll_length_mono _ r
  · exact le_refl _

theorem commitFold_getAll_length_mono (proc : IndexerTransaction → List SilentPaymentUTXO)
    (blockHeight : Nat) (txs : List IndexerTransactionData) :
    ∀ r : UTXORepository,
      r.getAll.length ≤ (txs.foldl (commitTx proc blockHeight) r).getAll.length := by
  induction txs with
  | nil => intro r; exact le_refl _
  | cons tx txs ih =>
    intro r
    exact le_trans (commitTx_getAll_length_mono proc blockHeight r tx) (ih _)

theorem processAndAdd_getAll_length_mono
    (proc : IndexerTransaction → List SilentPaymentUTXO) (w : WalletState)
    (transactions : List IndexerTransactionData) (blockHeight : Nat) :
    w.repo.getAll.length
      ≤ (processAndAddTransactions proc w transactions blockHeight).repo.getAll.length :=
  commitFold_getAll_length_mono proc blockHeight transactions w.repo

theorem scanWithCallback_getAll_length_mono (fetch : Int → Nat × TransactionResponse)
    (proc : IndexerTransaction → List SilentPaymentUTXO) (e h : Int)
    (w : WalletState) :
    w.repo.getAll.length ≤ (scanWithCallback fetch proc e h w).repo.getAll.length := by
  generalize hn : (h + 1 - e).toNat = n
  induction n generalizing h w with
  | zero =>
    rw [scanWithCallback, dif_neg (by omega : ¬ e ≤ h)]
  | succ n ih =>
    rw [scanWithCallback, dif_pos (by omega : e ≤ h)]
    cases executeGet (fetch h).1 (fetch h).2 with
    | ok response =>
      dsimp only
      split
      · exact le_trans (processAndAdd_getAll_length_mono proc w response.transactions h.toNat)
          (ih (h - 1) _ (by omega))
      · exact ih (h - 1) w (by omega)
    | error err => exact ih (h - 1) w (by omega)

/-- The repository holds an entry with the (txid, vout) key of `u`. -/
def keyPresent (r : UTXORepository) (u : SilentPaymentUTXO) : Prop :=
  ∃ x ∈ r.utxos, x.txid = u.txid ∧ x.vout = u.vout

theorem keyPresent_add (r : UTXORepository) (u v : SilentPaymentUTXO)
    (h : keyPresent r v) : keyPresent (r.add u).2 v := by
  obtain ⟨x, hx, hk⟩ := h
  unfold UTXORepository.add
  split
  · exact ⟨x, hx, hk⟩
  · exact ⟨x, by simp [hx], hk⟩

theorem keyPresent_add_self (r : UTXORepository) (u : SilentPaymentUTXO) :
    keyPresent (r.add u).2 u := by
  unfold UTXORepository.add
  split
  · rename_i hdup
    obtain ⟨x, hx, hpx⟩ := List.any_eq_true.mp hdup
    rw [Bool.and_eq_true] at hpx
    obtain ⟨h1, h2⟩ := hpx
    exact ⟨x, hx, beq_iff_eq.mp h1, beq_iff_eq.mp h2⟩
  · exact ⟨u, by simp, rfl, rfl⟩

theorem keyPresent_addFold (us : List SilentPaymentUTXO) :
    ∀ (r : UTXORepository) (v : SilentPaymentUTXO), keyPresent r v →
      keyPresent (us.foldl (fun r2 u => (r2.add u).2) r) v := by
  induction us with
  | nil => intro r v h; exact h
  | cons u us ih =>
    intro r v h
    exact ih _ v (keyPresent_add r u v h)

theorem keyPresent_addFold_mem (us : List SilentPaymentUTXO) :
    ∀ (r : UTXORepository) (u : SilentPaymentUTXO), u ∈ us →
      keyPresent (us.foldl (fun r2 u2 => (r2.add u2).2) r) u := by
  induction us with
  | nil => intro r u h; cases h
  | cons u2 us ih =>
    intro r u h
    rcases List.mem_cons.mp h with h | h
    · subst h
      exact keyPresent_addFold us _ u (keyPresent_add_self r u)
    · exact ih _ u h

theorem keyPresent_commitTx (proc : IndexerTransaction → List SilentPaymentUTXO)
    (blockHeight : Nat) (r : UTXORepository) (tx : IndexerTransactionData)
    (v : SilentPaymentUTXO) (h : keyPresent r v) :
    keyPresent (commitTx proc blockHeight r tx) v := by
  unfold commitTx
  split
  · exact keyPresent_addFold _ r v h
  · exact h

theorem keyPresent_commitFold (proc : IndexerTransaction → List SilentPaymentUTXO)
    (blockHeight : Nat) (txs : List IndexerTransactionData) :
    ∀ (r : UTXORepository) (v : SilentPaymentUTXO), keyPresent r v →
      keyPresent (txs.foldl (commitTx proc blockHeight) r) v := by
  induction txs with
  | nil => intro r v h; exact h
  | cons tx txs ih =>
    intro r v h
    exact ih _ v (keyPresent_commitTx proc blockHeight r tx v h)

theorem keyPresent_commitFold_mem (proc : IndexerTransaction → List SilentPaymentUTXO)
    (blockHeight : Nat) (txs : List IndexerTransactionData) :
    ∀ (r : UTXORepository) (tx : IndexerTransactionData), tx ∈ txs →
      tx.scanTweak.length ≠ 0 → tx.outputs.length > 0 →
      ∀ u ∈ proc (toIndexerTransaction tx blockHeight),
        keyPresent (txs.foldl (commitTx proc blockHeight) r) u := by
  induction txs with
  | nil => intro r tx h; cases h
  | cons tx2 txs ih =>
    intro r tx h h1 h2 u hu
    rcases List.mem_cons.mp h with h | h
    · subst h
      refine keyPresent_commitFold proc blockHeight txs _ u ?_
      unfold commitTx
      rw [if_pos ⟨h1, h2⟩]
      exact keyPresent_addFold_mem _ r u hu
    · exact ih _ tx h h1 h2 u hu

theorem add_spent_invisible (r : UTXORepository) (u : SilentPaymentUTXO)
    (h : u.isSpent = true) :
    (r.add u).2.getAll = r.getAll
    ∧ (r.add u).2.getBalance = r.getBalance
    ∧ ((r.add u).1 = true → (r.add u).2.utxos.length = r.utxos.length + 1) := by
  unfold UTXORepository.add
  split
  · exact ⟨rfl, rfl, fun hc => by cases hc⟩
  · refine ⟨?_, ?_, fun _ => by simp⟩
    · simp [UTXORepository.getAll, List.filter_append, h]
    · rw [getBalance_eq_sum, getBalance_eq_sum]
      simp [List.filter_append, h]

/-- Claim C8, counterexample: `setLastScannedBlock` is a wallet operation that
strictly lowers `lastScannedBlock`, so the marker is not monotonically
non-decreasing across every operation of the wallet. -/
theorem set_last_scanned_block_decreases :
    getLastScannedBlock (setLastScannedBlock ⟨UTXORepository.empty, 10⟩ 3)
      < getLastScannedBlock ⟨UTXORepository.empty, 10⟩ := by
  decide

/-- Claim C8, amended: the scan path (`processAndAddTransactions`) sets
`lastScannedBlock` to the maximum of its current value and the processed
height — hence never lowers it — and the state it produces already has every
match of every eligible transaction of the block committed under its
(txid, vout) key; only the explicit mutators `setLastScannedBlock` and
`clearCache` can lower the marker. -/
theorem scan_progress_max_after_commit
    (proc : IndexerTransaction → List SilentPaymentUTXO) (w : WalletState)
    (transactions : List IndexerTransactionData) (blockHeight : Nat) :
    (processAndAddTransactions proc w transactions blockHeight).lastScannedBlock
      = max w.lastScannedBlock blockHeight
    ∧ w.lastScannedBlock
        ≤ (processAndAddTransactions proc w transactions blockHeight).lastScannedBlock
    ∧ ∀ tx ∈ transactions, tx.scanTweak.length ≠ 0 → tx.outputs.length > 0 →
        ∀ u ∈ proc (toIndexerTransaction tx blockHeight),
          keyPresent (processAndAddTransactions proc w transactions blockHeight).repo u := by
  refine ⟨?_, ?_, ?_⟩
  · simp only [processAndAddTransactions]
    split <;> omega
  · simp only [processAndAddTransactions]
    split <;> omega
  · intro tx htx h1 h2 u hu
    exact keyPresent_commitFold_mem proc blockHeight transactions w.repo tx htx h1 h2 u hu

/-- An indexer transaction with a tweak and one output, for concrete checks. -/
def demoTxData : IndexerTransactionData :=
  { id := "t1", blockHeight := 0, blockHash := "hb", scanTweak := ['0', '0'],
    outputs := [{ transactionId := "t1", vout := 0, pubKey := [], value := 1,
                  isSpent := false }] }

/-- Witness for the amended claim C8 at a concrete wallet, block and match. -/
theorem scan_progress_max_after_commit_witness :
    (processAndAddTransactions (fun _ => [sampleUnspent])
        ⟨UTXORepository.empty, 5⟩ [demoTxData] 7).lastScannedBlock = max 5 7
    ∧ keyPresent (processAndAddTransactions (fun _ => [sampleUnspent])
        ⟨UTXORepository.empty, 5⟩ [demoTxData] 7).repo sampleUnspent := by
  have h := scan_progress_max_after_commit (fun _ => [sampleUnspent])
    ⟨UTXORepository.empty, 5⟩ [demoTxData] 7
  exact ⟨h.1, h.2.2 demoTxData (by simp) (by decide) (by decide) sampleUnspent (by simp)⟩

/-- Claim C10: the number returned by `scanForPayments` is exactly the growth
of `getAll().length` over the scan (which never shrinks), and an `add` of a
matched output whose spent flag is true stores the record without changing
`getAll()` or `getBalance()`. -/
theorem scan_count_is_unspent_growth (fetch : Int → Nat × TransactionResponse)
    (proc : IndexerTransaction → List SilentPaymentUTXO) (maxBlocks tip : Nat)
    (w : WalletState) :
    (scanForPayments fetch proc maxBlocks tip w).1
      = (scanForPayments fetch proc maxBlocks tip w).2.repo.getAll.length
          - w.repo.getAll.length
    ∧ w.repo.getAll.length
        ≤ (scanForPayments fetch proc maxBlocks tip w).2.repo.getAll.length
    ∧ ∀ (r : UTXORepository) (u : SilentPaymentUTXO), u.isSpent = true →
        (r.add u).2.getAll = r.getAll
        ∧ (r.add u).2.getBalance = r.getBalance
        ∧ ((r.add u).1 = true → (r.add u).2.utxos.length = r.utxos.length + 1) := by
  refine ⟨rfl, ?_, fun r u h => add_spent_invisible r u h⟩
  exact scanWithCallback_getAll_length_mono fetch proc _ tip w

/-- Witness for claim C10: a concrete scan and a concrete spent match. -/
theorem scan_count_is_unspent_growth_witness :
    (scanForPayments fetchEmpty (fun _ => []) 1 0
        ⟨UTXORepository.empty, 0⟩).1
      = (scanForPayments fetchEmpty (fun _ => []) 1 0
          ⟨UTXORepository.empty, 0⟩).2.repo.getAll.length - 0
    ∧ (UTXORepository.empty.add sampleSpent).2.getAll = UTXORepository.empty.getAll
    ∧ (UTXORepository.empty.add sampleSpent).2.getBalance = UTXORepository.empty.getBalance
    ∧ (UTXORepository.empty.add sampleSpent).2.utxos.length
        = UTXORepository.empty.utxos.length + 1 := by
  have h := scan_count_is_unspent_growth fetchEmpty (fun _ => []) 1 0
    ⟨UTXORepository.empty, 0⟩
  have hs := h.2.2 UTXORepository.empty sampleSpent rfl
  exact ⟨h.1, hs.1, hs.2.1, hs.2.2 (by decide)⟩

end SilentPay
